import Mathlib

/-!
Verification development for the `pydantic-sqlalchemy-mapper` repository.

The development is a shallow embedding, in Lean 4, of the two source
modules of the repository:

* `mapper.py` — the schema type synthesizer (`SqlAlchemyPydanticMapper`):
  `_to_pydantic` turns a SQLAlchemy model (entity) description into a
  pydantic model (schema) description, with a two-phase, process-wide
  name-keyed cache (`mapped_types`).
* `loader.py` — the graph materializer (`SqlAlchemyPydanticLoader`):
  `_serialize_sync` / `_serialize` walk an entity instance to a nested
  record with a depth budget, `relationship_resolver_for` resolves one
  relationship (reading loaded state or fetching), and `loader_for`
  performs the single batched fetch and per-key grouping.

Python objects are modelled first-order: entity metadata as explicit
descriptor structures, pydantic models as a `Schema` tree, Python runtime
values flowing through the loader as `PV` (None / ORM instance / list),
raised exceptions as `Except Fault`, and the SQLAlchemy session boundary
as an explicit list of issued `Query` values plus a list-of-rows storage.
Recursion in `_to_pydantic` is fuel-indexed (Python recursion depth),
recursion in the serializers is structural on the depth budget, exactly as
in the source.
-/

namespace PSM

/-! ## Schema type synthesizer (`mapper.py`) -/

/-- Relationship direction (`sqlalchemy.orm.relationships`:
`MANYTOONE`, `ONETOMANY`, `MANYTOMANY`). -/
inductive Dir where
  | manytoone
  | onetomany
  | manytomany
  deriving DecidableEq

/-- A column of an entity, as `_to_pydantic` consumes it: its name, the
outcome of the `python_type` resolution chain of `mapper.py` lines 47-52
(`column.type.impl.python_type` / `column.type.python_type`, `none` when
neither resolves), and its nullability. -/
structure ColumnDesc where
  name : String
  pythonType : Option String
  nullable : Bool
  deriving DecidableEq

/-- A relationship of an entity as `_to_pydantic` consumes it: its
attribute name, direction, and the target entity (an index into the
ambient entity environment, modelling `attr_value.mapper.class_`). -/
structure RelDesc where
  name : String
  direction : Dir
  target : Nat
  deriving DecidableEq

/-- An entity (SQLAlchemy model class) as seen by `_to_pydantic`:
`__name__`, optional `__pydantic_name__`, `__pydantic_exclude__`,
columns and relationships. -/
structure EntityDesc where
  name : String
  pydanticName : Option String
  pydanticExclude : List String
  columns : List ColumnDesc
  relationships : List RelDesc
  deriving DecidableEq

/-- Keyword options of `_to_pydantic` (`config`, `exclude`, `model_name`). -/
structure Opts where
  config : Option String
  exclude : List String
  modelName : Option String

instance : Inhabited Opts := ⟨⟨none, [], none⟩⟩

/-- Failures of synthesis: the `assert python_type` failure of
`mapper.py` line 53 (the spec's `MappingError`), a missing relationship
target in the environment, and fuel exhaustion of the embedding. -/
inductive MapErr where
  | mappingError
  | badTarget
  | outOfFuel
  deriving DecidableEq

/-- Default value recorded for a synthesized pydantic field:
`...` (required), `None`, or `[]`. -/
inductive Dflt where
  | required
  | dnull
  | demptyList
  deriving DecidableEq

mutual
/-- A synthesized pydantic model: its name and its ordered field list
(`create_model(new_model_name, **fields)`). -/
inductive Schema where
  | mk : String → List SField → Schema

/-- One pydantic field: name, type annotation, default. -/
inductive SField where
  | mk : String → FTy → Dflt → SField

/-- A pydantic field annotation: `python_type`, `Optional[python_type]`,
`List[related_schema]`, `Optional[related_schema]`. -/
inductive FTy where
  | scalar : String → FTy
  | optScalar : String → FTy
  | listOf : Schema → FTy
  | optOf : Schema → FTy
end

def Schema.name : Schema → String
  | .mk n _ => n

def Schema.fields : Schema → List SField
  | .mk _ fs => fs

def SField.name : SField → String
  | .mk n _ _ => n

/-- Is a field a scalar (column-derived) field, i.e. not a relationship
field? -/
def SField.isScalarField : SField → Bool
  | .mk _ (.scalar _) _ => true
  | .mk _ (.optScalar _) _ => true
  | _ => false

/-- The `mapped_types` registry: name-keyed mapping, modelled as an
association list where insertion conses (later bindings shadow earlier
ones, matching dict overwrite for lookup purposes). -/
abbrev Cache := List (String × Schema)

/-- Commit log: the sequence of `self.mapped_types[name] = model`
assignments, in chronological order. -/
abbrev Trace := List (String × Schema)

/-- Dictionary lookup in the cache (`self.mapped_types` access /
`name in self.mapped_types`). -/
def clookup : Cache → String → Option Schema
  | [], _ => none
  | (k, v) :: t, n => if k = n then some v else clookup t n

/-- Canonical name computation, `mapper.py` line 38:
`getattr(db_model, "__pydantic_name__", model_name or db_model.__name__)`.
The entity-declared `__pydantic_name__` takes precedence; otherwise the
explicit `model_name` (Python-falsy `""` falls through); otherwise
`__name__`. -/
def canonName (E : EntityDesc) (o : Opts) : String :=
  match E.pydanticName with
  | some s => s
  | none =>
    match o.modelName with
    | some s => if s = "" then E.name else s
    | none => E.name

/-- The column loop of `_to_pydantic` (`mapper.py` lines 44-57): skip
excluded columns, fail with the line-53 assertion when `python_type`
did not resolve, otherwise emit `(python_type, ...)` for non-nullable
and `(Optional[python_type], None)` for nullable columns, in column
order. -/
def scalarFields : List ColumnDesc → List String → Except MapErr (List SField)
  | [], _ => .ok []
  | col :: rest, excl =>
    if col.name ∈ excl then
      scalarFields rest excl
    else
      match col.pythonType with
      | none => .error .mappingError
      | some py =>
        match scalarFields rest excl with
        | .error e => .error e
        | .ok fs =>
          .ok ((if col.nullable then SField.mk col.name (.optScalar py) .dnull
                else SField.mk col.name (.scalar py) .required) :: fs)

/-- Direction-to-field mapping of `_to_pydantic` (`mapper.py` lines
68-75): `ONETOMANY → (List[S], [])`, `MANYTOONE → (Optional[S], None)`,
`MANYTOMANY → (List[S], None)`. -/
def relField (r : RelDesc) (s : Schema) : SField :=
  match r.direction with
  | .onetomany => SField.mk r.name (.listOf s) .demptyList
  | .manytoone => SField.mk r.name (.optOf s) .dnull
  | .manytomany => SField.mk r.name (.listOf s) .dnull

/-- The relationship loop of `_to_pydantic` (`mapper.py` lines 62-75),
parameterized by the recursive synthesis call `tp` (the source calls
`self._to_pydantic(related_model)` with default options). State
(cache) and the commit trace are threaded left to right; a failing
recursive call aborts the loop but keeps the cache mutations already
performed, exactly as a raised Python exception would. -/
def relFieldsAux (env : List EntityDesc)
    (tp : EntityDesc → Cache → Cache × Trace × Except MapErr Schema) :
    List RelDesc → List String → Cache → Cache × Trace × Except MapErr (List SField)
  | [], _, c => (c, [], .ok [])
  | r :: rest, excl, c =>
    if r.name ∈ excl then
      relFieldsAux env tp rest excl c
    else
      match env[r.target]? with
      | none => (c, [], .error .badTarget)
      | some tgt =>
        match tp tgt c with
        | (c1, tr1, .error e) => (c1, tr1, .error e)
        | (c1, tr1, .ok s) =>
          match relFieldsAux env tp rest excl c1 with
          | (c2, tr2, .error e) => (c2, tr1 ++ tr2, .error e)
          | (c2, tr2, .ok fs) => (c2, tr1 ++ tr2, .ok (relField r s :: fs))

/-- `_to_pydantic` (`mapper.py` lines 31-80), fuel-indexed. In order:
compute the canonical name (line 38); return the cached model on a hit
(lines 39-40); build the scalar fields (lines 41-57, failing with the
spec's `MappingError` on an unresolvable column type); commit the
scalar-only model (stage one, lines 59-60); synthesize relationship
fields with recursive calls (lines 62-75); rebuild and commit the full
model under the same name (stage two, lines 77-79). -/
def toPydantic (env : List EntityDesc) :
    Nat → EntityDesc → Opts → Cache → Cache × Trace × Except MapErr Schema
  | 0, _, _, c => (c, [], .error .outOfFuel)
  | fuel + 1, E, o, c =>
    let name := canonName E o
    match clookup c name with
    | some m => (c, [], .ok m)
    | none =>
      let excl := o.exclude ++ E.pydanticExclude
      match scalarFields E.columns excl with
      | .error e => (c, [], .error e)
      | .ok sf =>
        let stub := Schema.mk name sf
        match relFieldsAux env (fun E2 c2 => toPydantic env fuel E2 ⟨none, [], none⟩ c2)
            E.relationships excl ((name, stub) :: c) with
        | (c2, tr2, .error e) => (c2, (name, stub) :: tr2, .error e)
        | (c2, tr2, .ok rf) =>
          let full := Schema.mk name (sf ++ rf)
          ((name, full) :: c2, (name, stub) :: (tr2 ++ [(name, full)]), .ok full)

/-! ## Scalar values and `_convert` (`loader.py` lines 47-55) -/

/-- A `datetime.datetime` value (naive; the code never touches tzinfo). -/
structure PyDateTime where
  year : Nat
  month : Nat
  day : Nat
  hour : Nat
  minute : Nat
  second : Nat
  microsecond : Nat
  deriving DecidableEq

/-- A `datetime.time` value. -/
structure PyTime where
  hour : Nat
  minute : Nat
  second : Nat
  microsecond : Nat
  deriving DecidableEq

/-- A non-negative `datetime.timedelta` in its normalized representation
(`0 ≤ seconds < 86400`, `0 ≤ microseconds < 10^6`). -/
structure PyDelta where
  days : Nat
  seconds : Nat
  microseconds : Nat
  deriving DecidableEq

/-- A Python scalar value stored in a column, as `_convert` dispatches on
it: `datetime`, `time`, `timedelta`, and pass-through scalars. -/
inductive Scalar where
  | dt : PyDateTime → Scalar
  | tod : PyTime → Scalar
  | dur : PyDelta → Scalar
  | int : Int → Scalar
  | str : String → Scalar
  | bool : Bool → Scalar
  | null : Scalar
  deriving DecidableEq

/-- The ASCII digit character for `n ≤ 9`. -/
def digitChar (n : Nat) : Char := Char.ofNat (48 + n)

/-- Two-digit zero-padded decimal rendering. -/
def pad2 (n : Nat) : List Char := [digitChar (n / 10), digitChar (n % 10)]

/-- Four-digit zero-padded decimal rendering. -/
def pad4 (n : Nat) : List Char :=
  [digitChar (n / 1000), digitChar (n / 100 % 10), digitChar (n / 10 % 10), digitChar (n % 10)]

/-- Six-digit zero-padded decimal rendering. -/
def pad6 (n : Nat) : List Char :=
  [digitChar (n / 100000 % 10), digitChar (n / 10000 % 10), digitChar (n / 1000 % 10),
   digitChar (n / 100 % 10), digitChar (n / 10 % 10), digitChar (n % 10)]

/-- `datetime.isoformat(timespec="seconds")`: the fixed-format text
`YYYY-MM-DDTHH:MM:SS`, dropping sub-second precision. -/
def isoDateTimeSec (d : PyDateTime) : String :=
  ⟨pad4 d.year ++ '-' :: pad2 d.month ++ '-' :: pad2 d.day ++
   'T' :: pad2 d.hour ++ ':' :: pad2 d.minute ++ ':' :: pad2 d.second⟩

/-- `time.isoformat(timespec="seconds")`: `HH:MM:SS`. -/
def isoTimeSec (t : PyTime) : String :=
  ⟨pad2 t.hour ++ ':' :: pad2 t.minute ++ ':' :: pad2 t.second⟩

/-- `str(timedelta)` for the normalized non-negative case:
`[D day[s], ]H:MM:SS[.ffffff]`. -/
def strDelta (td : PyDelta) : String :=
  let h := td.seconds / 3600
  let m := td.seconds % 3600 / 60
  let s := td.seconds % 60
  let hms := toString h ++ ":" ++ String.mk (pad2 m) ++ ":" ++ String.mk (pad2 s) ++
    (if td.microseconds = 0 then "" else "." ++ String.mk (pad6 td.microseconds))
  if td.days = 0 then hms
  else toString td.days ++ (if td.days = 1 then " day, " else " days, ") ++ hms

/-- `SqlAlchemyPydanticLoader._convert` (`loader.py` lines 47-55):
`datetime` and `time` become second-precision isoformat text,
`timedelta` becomes `str(obj)`, every other value passes through. -/
def Scalar.convert : Scalar → Scalar
  | .dt d => .str (isoDateTimeSec d)
  | .tod t => .str (isoTimeSec t)
  | .dur td => .str (strDelta td)
  | x => x

/-- Is a character an ASCII decimal digit? -/
def isDigitCode (c : Char) : Bool := 48 ≤ c.toNat && c.toNat ≤ 57

/-- Decimal value of an ASCII digit character. -/
def decDigit (c : Char) : Nat := c.toNat - 48

/-- Modelled from the spec: the validation step (`outputMode =
validated`, pydantic's datetime parsing) is outside this repository's
source; per spec section 4.2 it "parses that record through the root
SchemaType's validation rules", reading second-precision fixed-format
text `YYYY-MM-DDTHH:MM:SS` back into a date/time value. -/
def parseIsoDateTimeSec (s : String) : Option PyDateTime :=
  match s.data with
  | [y1, y2, y3, y4, a1, mo1, mo2, a2, d1, d2, a3, h1, h2, a4, mi1, mi2, a5, s1, s2] =>
    if a1 = '-' ∧ a2 = '-' ∧ a3 = 'T' ∧ a4 = ':' ∧ a5 = ':' ∧
       isDigitCode y1 ∧ isDigitCode y2 ∧ isDigitCode y3 ∧ isDigitCode y4 ∧
       isDigitCode mo1 ∧ isDigitCode mo2 ∧ isDigitCode d1 ∧ isDigitCode d2 ∧
       isDigitCode h1 ∧ isDigitCode h2 ∧ isDigitCode mi1 ∧ isDigitCode mi2 ∧
       isDigitCode s1 ∧ isDigitCode s2 then
      some ⟨decDigit y1 * 1000 + decDigit y2 * 100 + decDigit y3 * 10 + decDigit y4,
            decDigit mo1 * 10 + decDigit mo2,
            decDigit d1 * 10 + decDigit d2,
            decDigit h1 * 10 + decDigit h2,
            decDigit mi1 * 10 + decDigit mi2,
            decDigit s1 * 10 + decDigit s2, 0⟩
    else none
  | _ => none

/-! ## Loader data model (`loader.py`) -/

/-- Relationship metadata consumed by `relationship_resolver_for` and
`loader_for`: `uselist`, `direction`, the local and remote key column
names of `local_remote_pairs`, the optional `order_by` clause, and the
related model's name (`_relationship.entity.entity`). -/
structure RelMeta where
  uselist : Bool
  direction : Dir
  localCols : List String
  remoteCols : List String
  orderBy : Option String
  target : String
  deriving DecidableEq

mutual
/-- An ORM instance: type `__name__`, optional `__pydantic_name__`
(looked up through the instance, as `getattr(item, "__pydantic_name__",
type(item).__name__)` does), column values, and per-relationship state. -/
inductive Inst where
  | mk : String → Option String → List (String × Scalar) → List RelEntry → Inst

/-- One relationship attribute of an instance: attribute name, the
type-level `RelationshipProperty` metadata, whether the relation is
loaded (`key not in instance_state.unloaded`), and the in-memory value
`getattr(instance, key)` yields. -/
inductive RelEntry where
  | mk : String → RelMeta → Bool → PV → RelEntry

/-- A Python value flowing through the loader: `None`, an ORM instance,
or a list. -/
inductive PV where
  | none : PV
  | inst : Inst → PV
  | list : List PV → PV
end

def Inst.typeName : Inst → String
  | .mk n _ _ _ => n

def Inst.pydanticName : Inst → Option String
  | .mk _ p _ _ => p

def Inst.cols : Inst → List (String × Scalar)
  | .mk _ _ cs _ => cs

def Inst.rels : Inst → List RelEntry
  | .mk _ _ _ rs => rs

def RelEntry.name : RelEntry → String
  | .mk n _ _ _ => n

def RelEntry.meta : RelEntry → RelMeta
  | .mk _ m _ _ => m

def RelEntry.loaded : RelEntry → Bool
  | .mk _ _ l _ => l

def RelEntry.value : RelEntry → PV
  | .mk _ _ _ v => v

/-- Python exceptions raised by the loader code: `AttributeError`
(missing attribute, e.g. `model_fields` on `None`), `TypeError`
(subscripting / introspecting a non-subscriptable value), `IndexError`
(`value[0]` on an empty list). -/
inductive Fault where
  | attrError
  | typeError
  | indexError
  deriving DecidableEq

/-- Column value lookup on an instance. -/
def colLookup (i : Inst) (n : String) : Option Scalar :=
  i.cols.lookup n

/-- `getattr(instance, column_name)`: the column's value, or an
`AttributeError`. -/
def getCol (i : Inst) (n : String) : Except Fault Scalar :=
  match colLookup i n with
  | some v => .ok v
  | none => .error .attrError

/-- `getattr(item, "__pydantic_name__", type(item).__name__)` on the
value `item`: instances answer their pydantic or type name; `None` has
type name `NoneType`; a list has type name `list`. -/
def pyNameOf : PV → String
  | .inst i =>
    match i.pydanticName with
    | some s => s
    | none => i.typeName
  | .none => "NoneType"
  | .list _ => "list"

/-- The single SELECT issued by `loader_for` (`loader.py` lines 173-180):
target model, the remote key columns of the equality-membership filter
`tuple_(remote...).in_(keys)`, the full requested key set, and the
relationship's declared ordering clause, if any. -/
structure Query where
  target : String
  remoteCols : List String
  keys : List (List Scalar)
  orderBy : Option String
  deriving DecidableEq

/-- The query `loader_for` builds for a relationship and a key batch. -/
def mkQuery (meta : RelMeta) (keys : List (List Scalar)) : Query :=
  ⟨meta.target, meta.remoteCols, keys, meta.orderBy⟩

/-- The remote-key tuple of a storage row as SQL evaluates it (column
values, `NULL` for an absent column). -/
def fetchKey (remoteCols : List String) (r : Inst) : List Scalar :=
  remoteCols.map (fun cn => (colLookup r cn).getD .null)

/-- The Storage Access boundary (`_scalars_all`, `loader.py` lines
202-208): executing the query returns the storage rows matching the
equality-membership filter, in the order the storage yields them (the
`db` list stands for the ordered result sequence of the storage engine;
the `order_by` clause is carried in the query and honoured by the
storage side). -/
def runFetch (db : List Inst) (q : Query) : List Inst :=
  db.filter (fun r => fetchKey q.remoteCols r ∈ q.keys)

/-- The `defaultdict(list)` grouping of `loader_for` (`loader.py` lines
191-193): fold the fetched rows in order, appending each row to the
group of its remote-key tuple. -/
def dd (pairs : List (Inst × List Scalar)) : List Scalar → List Inst :=
  pairs.foldl (fun m p => fun k => if k = p.2 then m k ++ [p.1] else m k) (fun _ => [])

/-- `group_by_remote_key` (`loader.py` lines 182-189): the tuple of the
row's own remote-key column values (skipping falsy column keys), read
with `getattr`. -/
def rowKey (meta : RelMeta) (r : Inst) : Except Fault (List Scalar) :=
  (meta.remoteCols.filter (fun cn => cn ≠ "")).mapM (getCol r)

/-- `loader_for` (`loader.py` lines 168-200): build the single
batched query, fetch once, group rows by their remote-key tuple, and
map every requested key to its ordered group (`uselist`) or to the
group's first row / `None`. The first component is the list of issued
queries — always exactly the one query. -/
def loader_for (meta : RelMeta) (keys : List (List Scalar)) (db : List Inst) :
    List Query × Except Fault PV :=
  let q := mkQuery meta keys
  let rows := runFetch db q
  ([q],
    match rows.mapM (fun r => (rowKey meta r).map (fun k => (r, k))) with
    | .error e => .error e
    | .ok pairs =>
      let grouped := dd pairs
      if meta.uselist then
        .ok (.list (keys.map (fun k => PV.list ((grouped k).map PV.inst))))
      else
        .ok (.list (keys.map (fun k =>
          match grouped k with
          | x :: _ => PV.inst x
          | [] => PV.none))))

/-- `relationship_resolver_for` (`loader.py` lines 143-166): read the
loaded value directly, otherwise compute the local key tuple and either
short-circuit on a null component (no fetch) or batch-fetch the single
key; finally, for a `MANYTOONE` relationship, take `related_objects[0]`
(which faults on `None`, on a plain instance, and on an empty list). -/
def resolverFor (db : List Inst) (i : Inst) (r : RelEntry) : List Query × Except Fault PV :=
  if r.loaded then
    finalize [] (.ok r.value)
  else
    match (r.meta.localCols.filter (fun cn => cn ≠ "")).mapM (getCol i) with
    | .error e => ([], .error e)
    | .ok key =>
      if Scalar.null ∈ key then
        ([], .ok (if r.meta.uselist then .list [] else .none))
      else
        match loader_for r.meta [key] db with
        | (qs, v) => finalize qs v
where
  /-- The `return related_objects[0] if direction == MANYTOONE else
  related_objects` step (`loader.py` line 166). -/
  finalize (qs : List Query) (v : Except Fault PV) : List Query × Except Fault PV :=
    match v with
    | .error e => (qs, .error e)
    | .ok ro =>
      if r.meta.direction = .manytoone then
        match ro with
        | .list (x :: _) => (qs, .ok x)
        | .list [] => (qs, .error .indexError)
        | _ => (qs, .error .typeError)
      else (qs, .ok ro)

/-! ## Graph materializer (`_serialize_sync` / `_serialize`) -/

/-- A value of the materialized record: a (converted) scalar, `None`,
a list, or a nested record. -/
inductive JVal where
  | prim : Scalar → JVal
  | null : JVal
  | arr : List JVal → JVal
  | obj : List (String × JVal) → JVal

/-- A materialized record: the `data` dict, in insertion order. -/
abbrev Rec := List (String × JVal)

/-- `data[k] = v`: replace in place if the key exists, else append
(Python dict assignment keeps the original insertion position). -/
def dset : Rec → String → JVal → Rec
  | [], n, v => [(n, v)]
  | (k, w) :: t, n, v => if k = n then (k, v) :: t else (k, w) :: dset t n v

/-- Dict lookup on a materialized record. -/
def dlookup : Rec → String → Option JVal
  | [], _ => none
  | (k, v) :: t, n => if k = n then some v else dlookup t n

/-- `pydantic_model.model_fields.keys()`. -/
def fieldNames (m : Schema) : List String :=
  m.fields.map SField.name

/-- The column loop shared by both serializers (`loader.py` lines 63-66
and 113-116): for each metadata column whose name is a schema field,
store the `_convert`-normalized value. -/
def colFold (flds : List String) (cols : List (String × Scalar)) : Rec :=
  cols.foldl (fun data p => if p.1 ∈ flds then dset data p.1 (.prim p.2.convert) else data) []

/-- The list comprehension of `_serialize_sync` (`loader.py` lines
76-81): serialize each item against the schema registered under the
item's own pydantic name. -/
def serializeSItems (ss : PV → Option Schema → Except Fault Rec) (mt : Cache) :
    List PV → Except Fault (List Rec)
  | [] => .ok []
  | item :: rest =>
    match ss item (clookup mt (pyNameOf item)) with
    | .error e => .error e
    | .ok rec =>
      match serializeSItems ss mt rest with
      | .error e => .error e
      | .ok recs => .ok (rec :: recs)

/-- The relationship loop of `_serialize_sync` (`loader.py` lines
68-88) at a remaining decremented budget `d` (the Python loop body's
`depth - 1`): `ss` is the recursive serialization call already fixed at
depth `d`. A list value yields `[]` at the boundary or the serialized
items; any other value yields `None` at the boundary or a recursive
serialization (which is where a loaded `None` is recursed into). -/
def serializeSRels (mt : Cache) (ss : PV → Option Schema → Except Fault Rec) (d : Nat)
    (flds : List String) : List RelEntry → Rec → Except Fault Rec
  | [], data => .ok data
  | r :: rest, data =>
    if r.name ∈ flds then
      match r.value with
      | .list xs =>
        if d = 0 then
          serializeSRels mt ss d flds rest (dset data r.name (.arr []))
        else
          match serializeSItems ss mt xs with
          | .error e => .error e
          | .ok recs => serializeSRels mt ss d flds rest (dset data r.name (.arr (recs.map .obj)))
      | v =>
        if d = 0 then
          serializeSRels mt ss d flds rest (dset data r.name .null)
        else
          match ss v (clookup mt (pyNameOf v)) with
          | .error e => .error e
          | .ok rec => serializeSRels mt ss d flds rest (dset data r.name (.obj rec))
    else
      serializeSRels mt ss d flds rest data

/-- `_serialize_sync` (`loader.py` lines 57-90): depth budget `≤ 0`
yields the empty record before anything is read; then
`pydantic_model.model_fields` (an `AttributeError` when the model is
`None`), then `inspect(type(db_instance))` (a fault for non-instances),
then the column loop, then the relationship loop at budget `depth - 1`.
The relation value is read directly from the instance's in-memory state
(`getattr`). -/
def serializeS (mt : Cache) : PV → Option Schema → Nat → Except Fault Rec
  | _, _, 0 => .ok []
  | pv, mo, d + 1 =>
    match mo with
    | none => .error .attrError
    | some m =>
      match pv with
      | .inst i =>
        serializeSRels mt (fun pv2 m2 => serializeS mt pv2 m2 d) d (fieldNames m) i.rels
          (colFold (fieldNames m) i.cols)
      | _ => .error .typeError

/-- The item comprehension of `_serialize` (`loader.py` lines 126-131),
accumulating the queries issued by nested resolutions. -/
def serializeAItems (sa : PV → Option Schema → List Query × Except Fault Rec) (mt : Cache) :
    List PV → List Query × Except Fault (List Rec)
  | [] => ([], .ok [])
  | item :: rest =>
    match sa item (clookup mt (pyNameOf item)) with
    | (qs, .error e) => (qs, .error e)
    | (qs, .ok rec) =>
      match serializeAItems sa mt rest with
      | (qs2, .error e) => (qs ++ qs2, .error e)
      | (qs2, .ok recs) => (qs ++ qs2, .ok (rec :: recs))

/-- The relationship loop of `_serialize` (`loader.py` lines 118-140)
at decremented budget `d`: every relation field goes through
`relationship_resolver_for`; a list value yields `[]` at the boundary,
otherwise `value[0]` is inspected (an `IndexError` on an empty list) to
unwrap the loader's nested group before the items are serialized; a
non-list non-default-python value (an instance) yields `None` at the
boundary or a recursive serialization; `None` (a default-python value)
is stored as is. -/
def serializeARels (db : List Inst) (mt : Cache)
    (sa : PV → Option Schema → List Query × Except Fault Rec) (i : Inst) (d : Nat)
    (flds : List String) : List RelEntry → List Query → Rec → List Query × Except Fault Rec
  | [], qs, data => (qs, .ok data)
  | r :: rest, qs, data =>
    if r.name ∈ flds then
      match resolverFor db i r with
      | (q1, .error e) => (qs ++ q1, .error e)
      | (q1, .ok v) =>
        match v with
        | .list l =>
          if d = 0 then
            serializeARels db mt sa i d flds rest (qs ++ q1) (dset data r.name (.arr []))
          else
            match l.head? with
            | Option.none => (qs ++ q1, .error .indexError)
            | some h =>
              let items := match h with
                | .list xs => xs
                | _ => l
              match serializeAItems sa mt items with
              | (q2, .error e) => (qs ++ q1 ++ q2, .error e)
              | (q2, .ok recs) =>
                serializeARels db mt sa i d flds rest (qs ++ q1 ++ q2)
                  (dset data r.name (.arr (recs.map .obj)))
        | .inst j =>
          if d = 0 then
            serializeARels db mt sa i d flds rest (qs ++ q1) (dset data r.name .null)
          else
            match sa (.inst j) (clookup mt (pyNameOf (.inst j))) with
            | (q2, .error e) => (qs ++ q1 ++ q2, .error e)
            | (q2, .ok rec) =>
              serializeARels db mt sa i d flds rest (qs ++ q1 ++ q2)
                (dset data r.name (.obj rec))
        | .none =>
          serializeARels db mt sa i d flds rest (qs ++ q1) (dset data r.name .null)
    else
      serializeARels db mt sa i d flds rest qs data

/-- `_serialize` (`loader.py` lines 107-141), the suspension-capable
form: identical structure to `_serialize_sync`, but every relation value
is obtained through `relationship_resolver_for` and the queries issued
along the way are accumulated. -/
def serializeA (db : List Inst) (mt : Cache) :
    PV → Option Schema → Nat → List Query × Except Fault Rec
  | _, _, 0 => ([], .ok [])
  | pv, mo, d + 1 =>
    match mo with
    | none => ([], .error .attrError)
    | some m =>
      match pv with
      | .inst i =>
        serializeARels db mt (fun pv2 m2 => serializeA db mt pv2 m2 d) i d (fieldNames m) i.rels
          [] (colFold (fieldNames m) i.cols)
      | _ => ([], .error .typeError)

/-! ## Basic dictionary lemmas -/

theorem clookup_cons_self (c : Cache) (n : String) (v : Schema) :
    clookup ((n, v) :: c) n = some v := by
  simp [clookup]

theorem clookup_cons_ne (c : Cache) (k n : String) (v : Schema) (h : k ≠ n) :
    clookup ((k, v) :: c) n = clookup c n := by
  simp [clookup, h]

theorem clookup_append (l c : Cache) (n : String) (h : ∀ p ∈ l, p.1 ≠ n) :
    clookup (l ++ c) n = clookup c n := by
  induction l with
  | nil => rfl
  | cons p t ih =>
    have hp : p.1 ≠ n := h p (by simp)
    cases p with
    | mk k v =>
      simp only [List.cons_append, clookup, if_neg hp]
      exact ih (fun q hq => h q (by simp [hq]))

theorem dlookup_dset_self (data : Rec) (n : String) (v : JVal) :
    dlookup (dset data n v) n = some v := by
  induction data with
  | nil => simp [dset, dlookup]
  | cons p t ih =>
    cases p with
    | mk k w =>
      by_cases h : k = n
      · simp [dset, dlookup, h]
      · simp [dset, dlookup, h, ih]

theorem dlookup_dset_ne (data : Rec) (k n : String) (v : JVal) (h : k ≠ n) :
    dlookup (dset data k v) n = dlookup data n := by
  induction data with
  | nil => simp [dset, dlookup, h]
  | cons p t ih =>
    cases p with
    | mk k2 w =>
      simp only [dset]
      by_cases h2 : k2 = k
      · subst h2
        simp [dlookup, h]
      · simp only [if_neg h2, dlookup]
        by_cases h3 : k2 = n
        · simp [h3]
        · simp [h3, ih]

/-- The `defaultdict(list)` fold groups exactly: the group of key `k` is
the ordered sublist of fetched rows whose remote-key tuple is `k`. -/
theorem dd_spec (pairs : List (Inst × List Scalar)) (k : List Scalar) :
    dd pairs k = (pairs.filter (fun p => p.2 = k)).map Prod.fst := by
  have h : ∀ m : List Scalar → List Inst,
      (pairs.foldl (fun m p => fun k2 => if k2 = p.2 then m k2 ++ [p.1] else m k2) m) k
        = m k ++ (pairs.filter (fun p => p.2 = k)).map Prod.fst := by
    induction pairs with
    | nil => intro m; simp
    | cons p rest ih =>
      intro m
      simp only [List.foldl_cons, List.filter_cons]
      rw [ih]
      by_cases hk : p.2 = k
      · simp [hk, List.append_assoc]
      · have hk2 : ¬(k = p.2) := fun h2 => hk h2.symm
        simp [hk, hk2]
  simpa [dd] using h (fun _ => [])

/-! ## Claim C1: one batched fetch, per-key grouping -/

/-- C1. For every relationship descriptor and non-empty key batch,
`loader_for` issues exactly one Storage Access fetch (one query,
carrying the equality-membership filter over the remote key columns
against the full key set and the relationship's declared ordering
clause), groups the fetched rows by the tuple of their own remote-key
column values, and maps each requested key, for `uselist`, to the
ordered list of its group's rows (empty when no row matches), and
otherwise to the first matched row or `None`. -/
theorem loader_batches_one_fetch (meta : RelMeta) (keys : List (List Scalar))
    (db : List Inst) (pairs : List (Inst × List Scalar))
    (hk : keys ≠ [])
    (hrows : (runFetch db (mkQuery meta keys)).mapM
      (fun r => (rowKey meta r).map (fun k => (r, k))) = .ok pairs) :
    loader_for meta keys db =
      ([mkQuery meta keys],
        .ok (if meta.uselist then
          PV.list (keys.map (fun k =>
            PV.list (((pairs.filter (fun p => p.2 = k)).map Prod.fst).map PV.inst)))
        else
          PV.list (keys.map (fun k =>
            match (pairs.filter (fun p => p.2 = k)).map Prod.fst with
            | x :: _ => PV.inst x
            | [] => PV.none)))) := by
  simp only [loader_for]
  rw [hrows]
  by_cases hu : meta.uselist <;> simp [hu, dd_spec]

def fixB1 : Inst := Inst.mk "Book" none [("id", .int 10), ("author_id", .int 7)] []

def fixB2 : Inst := Inst.mk "Book" none [("id", .int 11), ("author_id", .int 7)] []

def fixB3 : Inst := Inst.mk "Book" none [("id", .int 12), ("author_id", .int 8)] []

def fixDb : List Inst := [fixB1, fixB2, fixB3]

/-- A to-many `books` relationship: `Author.id` → `Book.author_id`. -/
def fixMetaBooks : RelMeta := ⟨true, .onetomany, ["id"], ["author_id"], none, "Book"⟩

/-- A to-one `author` relationship: `Book.author_id` → `Author.id`. -/
def fixMetaAuthor : RelMeta := ⟨false, .manytoone, ["author_id"], ["id"], none, "Author"⟩

theorem loader_batches_one_fetch_witness :
    loader_for fixMetaBooks [[Scalar.int 7]] fixDb =
      ([mkQuery fixMetaBooks [[Scalar.int 7]]],
        .ok (PV.list [PV.list [PV.inst fixB1, PV.inst fixB2]])) := by
  have h := loader_batches_one_fetch fixMetaBooks [[Scalar.int 7]] fixDb
    [(fixB1, [Scalar.int 7]), (fixB2, [Scalar.int 7])] (by simp) (by rfl)
  simpa using h

/-! ## Claim C3: null local key short-circuits without fetching -/

/-- C3. For every instance and unloaded relationship whose local key
tuple contains a null component, `relationship_resolver_for` returns the
empty list for a `uselist` relationship and `None` otherwise, and issues
no Storage Access query at all. -/
theorem null_local_key_short_circuits (db : List Inst) (i : Inst) (r : RelEntry)
    (key : List Scalar)
    (hload : r.loaded = false)
    (hkey : (r.meta.localCols.filter (fun cn => cn ≠ "")).mapM (getCol i) = .ok key)
    (hnull : Scalar.null ∈ key) :
    resolverFor db i r = ([], .ok (if r.meta.uselist then PV.list [] else PV.none)) := by
  unfold resolverFor
  rw [hload, hkey]
  simp [hnull]

def fixBookNullFK : Inst :=
  Inst.mk "Book" none [("id", .int 2), ("author_id", .null)]
    [RelEntry.mk "author" fixMetaAuthor false .none]

def fixRelAuthorUnloaded : RelEntry := RelEntry.mk "author" fixMetaAuthor false .none

theorem null_local_key_short_circuits_witness :
    resolverFor fixDb fixBookNullFK fixRelAuthorUnloaded = ([], .ok PV.none) := by
  have h := null_local_key_short_circuits fixDb fixBookNullFK fixRelAuthorUnloaded
    [Scalar.null] (by rfl) (by rfl) (by simp)
  simpa using h

/-! ## Claim C2: depth-budget boundary emits `[]` / `None` -/

/-- The value a relation field receives at the recursion boundary
(`depth - 1 == 0`), keyed on the shape of the resolved relation value:
an empty sequence for a list value, `None` otherwise. -/
def boundaryEmit : PV → JVal
  | .list _ => .arr []
  | _ => .null

/-- At the boundary (`d = 0`), the blocking relationship loop always
succeeds, touches only relation-field keys, and stores `[]` for a list
value and `None` for any other value — with no recursive call (the
recursive serializer `ss` is arbitrary and unused). -/
theorem serializeSRels_boundary (mt : Cache) (ss : PV → Option Schema → Except Fault Rec)
    (flds : List String) (rels : List RelEntry) (data : Rec) :
    ∃ out, serializeSRels mt ss 0 flds rels data = .ok out ∧
      (∀ n, n ∉ rels.map RelEntry.name → dlookup out n = dlookup data n) ∧
      ((rels.map RelEntry.name).Nodup →
        ∀ r ∈ rels, r.name ∈ flds → dlookup out r.name = some (boundaryEmit r.value)) := by
  induction rels generalizing data with
  | nil => exact ⟨data, rfl, fun n _ => rfl, by simp⟩
  | cons r0 rest ih =>
    by_cases hf : r0.name ∈ flds
    · have hstep : serializeSRels mt ss 0 flds (r0 :: rest) data
          = serializeSRels mt ss 0 flds rest (dset data r0.name (boundaryEmit r0.value)) := by
        cases hv : r0.value <;> simp [serializeSRels, hf, hv, boundaryEmit]
      obtain ⟨out, hout, hpres, hlook⟩ := ih (dset data r0.name (boundaryEmit r0.value))
      refine ⟨out, hstep ▸ hout, ?_, ?_⟩
      · intro n hn
        have hn0 : n ≠ r0.name := by
          intro h; exact hn (by simp [h])
        have hn1 : n ∉ rest.map RelEntry.name := fun h => hn (by simp [h])
        rw [hpres n hn1, dlookup_dset_ne _ _ _ _ (fun h => hn0 h.symm)]
      · intro hnd r hr hrf
        rw [List.map_cons, List.nodup_cons] at hnd
        rcases List.mem_cons.mp hr with h0 | h0
        · subst h0
          rw [hpres r.name hnd.1, dlookup_dset_self]
        · exact hlook hnd.2 r h0 hrf
    · obtain ⟨out, hout, hpres, hlook⟩ := ih data
      refine ⟨out, by simpa [serializeSRels, hf] using hout, ?_, ?_⟩
      · intro n hn
        exact hpres n (fun h => hn (by simp [h]))
      · intro hnd r hr hrf
        rw [List.map_cons, List.nodup_cons] at hnd
        rcases List.mem_cons.mp hr with h0 | h0
        · subst h0; exact absurd hrf hf
        · exact hlook hnd.2 r h0 hrf

/-- At the boundary (`d = 0`), when the suspension-capable relationship
loop completes, every relation field it reached resolved without fault
and was stored as `[]` (list value) or `None` (anything else), with no
recursive serialization (`sa` arbitrary). -/
theorem serializeARels_boundary (db : List Inst) (mt : Cache)
    (sa : PV → Option Schema → List Query × Except Fault Rec) (i : Inst)
    (flds : List String) (rels : List RelEntry) (qs : List Query) (data : Rec)
    (qs2 : List Query) (out : Rec)
    (h : serializeARels db mt sa i 0 flds rels qs data = (qs2, .ok out)) :
    (∀ n, n ∉ rels.map RelEntry.name → dlookup out n = dlookup data n) ∧
    ((rels.map RelEntry.name).Nodup →
      ∀ r ∈ rels, r.name ∈ flds →
        ∃ q1 v, resolverFor db i r = (q1, .ok v) ∧
          dlookup out r.name = some (boundaryEmit v)) := by
  induction rels generalizing qs data with
  | nil =>
    simp only [serializeARels] at h
    obtain ⟨rfl, rfl⟩ : qs = qs2 ∧ data = out := by
      constructor <;> injection h with h1 h2
      exact (by injection h2)
    exact ⟨fun n _ => rfl, by simp⟩
  | cons r0 rest ih =>
    by_cases hf : r0.name ∈ flds
    · rcases hres : resolverFor db i r0 with ⟨q1, v?⟩
      cases v? with
      | error e =>
        exfalso
        simp [serializeARels, hf, hres] at h
      | ok v =>
        have hstep : serializeARels db mt sa i 0 flds (r0 :: rest) qs data
            = serializeARels db mt sa i 0 flds rest (qs ++ q1)
                (dset data r0.name (boundaryEmit v)) := by
          cases v <;> simp [serializeARels, hf, hres, boundaryEmit]
        rw [hstep] at h
        obtain ⟨hpres, hlook⟩ := ih (qs ++ q1) (dset data r0.name (boundaryEmit v)) h
        constructor
        · intro n hn
          have hn0 : n ≠ r0.name := fun h2 => hn (by simp [h2])
          have hn1 : n ∉ rest.map RelEntry.name := fun h2 => hn (by simp [h2])
          rw [hpres n hn1, dlookup_dset_ne _ _ _ _ (fun h2 => hn0 h2.symm)]
        · intro hnd r hr hrf
          rw [List.map_cons, List.nodup_cons] at hnd
          rcases List.mem_cons.mp hr with h0 | h0
          · subst h0
            exact ⟨q1, v, hres, by rw [hpres r.name hnd.1, dlookup_dset_self]⟩
          · exact hlook hnd.2 r h0 hrf
    · rw [show serializeARels db mt sa i 0 flds (r0 :: rest) qs data
          = serializeARels db mt sa i 0 flds rest qs data by
        simp [serializeARels, hf]] at h
      obtain ⟨hpres, hlook⟩ := ih qs data h
      constructor
      · intro n hn
        exact hpres n (fun h2 => hn (by simp [h2]))
      · intro hnd r hr hrf
        rw [List.map_cons, List.nodup_cons] at hnd
        rcases List.mem_cons.mp hr with h0 | h0
        · subst h0; exact absurd hrf hf
        · exact hlook hnd.2 r h0 hrf

/-- C2 (amended). For every instance, schema, and relation field
reached with `depthBudget - 1 == 0` (budget 1 here): the blocking
materializer always emits — never omitting the key — an empty sequence
when the relation's in-memory value is a collection and `None`
otherwise, with no recursive serialization call and without fault; the
suspension-capable materializer does the same for every relation field
whose resolution returns a value, stated under the hypothesis that its
field loop completed — a hypothesis the code does not always meet,
because the resolver of any loaded to-one relation subscripts the
loaded value (`related_objects[0]`, `loader.py` line 166) and faults
instead of yielding it (see the C2 counterexample). -/
theorem depth_boundary_emits_empty_and_null (mt : Cache) (m : Schema) (i : Inst)
    (r : RelEntry)
    (hnd : (i.rels.map RelEntry.name).Nodup)
    (hr : r ∈ i.rels) (hf : r.name ∈ fieldNames m) :
    (∃ out, serializeS mt (.inst i) (some m) 1 = .ok out ∧
      dlookup out r.name = some (boundaryEmit r.value)) ∧
    (∀ db qs out, serializeA db mt (.inst i) (some m) 1 = (qs, .ok out) →
      ∃ q1 v, resolverFor db i r = (q1, .ok v) ∧
        dlookup out r.name = some (boundaryEmit v)) := by
  constructor
  · obtain ⟨out, hout, _, hlook⟩ := serializeSRels_boundary mt
      (fun pv2 m2 => serializeS mt pv2 m2 0) (fieldNames m) i.rels
      (colFold (fieldNames m) i.cols)
    exact ⟨out, by simpa [serializeS] using hout, hlook hnd r hr hf⟩
  · intro db qs out h
    have h2 : serializeARels db mt (fun pv2 m2 => serializeA db mt pv2 m2 0) i 0
        (fieldNames m) i.rels [] (colFold (fieldNames m) i.cols) = (qs, .ok out) := by
      simpa [serializeA] using h
    exact (serializeARels_boundary db mt _ i (fieldNames m) i.rels [] _ qs out h2).2 hnd r hr hf

def fixSchemaAuthorScalar : Schema := Schema.mk "Author" [SField.mk "id" (.scalar "int") .required]

def fixSchemaBook : Schema :=
  Schema.mk "Book"
    [SField.mk "id" (.scalar "int") .required,
     SField.mk "author" (.optOf fixSchemaAuthorScalar) .dnull]

def fixSchemaAuthor : Schema :=
  Schema.mk "Author"
    [SField.mk "id" (.scalar "int") .required,
     SField.mk "books" (.listOf fixSchemaBook) .demptyList]

def fixMt : Cache := [("Book", fixSchemaBook), ("Author", fixSchemaAuthor)]

/-- An author with two loaded books. -/
def fixAuthorLoaded : Inst :=
  Inst.mk "Author" none [("id", .int 7)]
    [RelEntry.mk "books" fixMetaBooks true (.list [.inst fixB1, .inst fixB2])]

def fixRelBooksLoaded : RelEntry :=
  RelEntry.mk "books" fixMetaBooks true (.list [.inst fixB1, .inst fixB2])

theorem depth_boundary_emits_empty_and_null_witness :
    (∃ out, serializeS fixMt (.inst fixAuthorLoaded) (some fixSchemaAuthor) 1 = .ok out ∧
      dlookup out "books" = some (JVal.arr [])) ∧
    (∀ qs out,
      serializeA fixDb fixMt (.inst fixAuthorLoaded) (some fixSchemaAuthor) 1 = (qs, .ok out) →
      dlookup out "books" = some (JVal.arr [])) := by
  have h := depth_boundary_emits_empty_and_null fixMt fixSchemaAuthor fixAuthorLoaded
    fixRelBooksLoaded (by simp [fixAuthorLoaded, Inst.rels, RelEntry.name])
    (by simp [fixAuthorLoaded, fixRelBooksLoaded, Inst.rels])
    (by simp [fixSchemaAuthor, fieldNames, Schema.fields, SField.name, fixRelBooksLoaded,
      RelEntry.name])
  constructor
  · obtain ⟨out, hout, hlook⟩ := h.1
    exact ⟨out, hout, by simpa [fixRelBooksLoaded, RelEntry.name, RelEntry.value, boundaryEmit] using hlook⟩
  · intro qs out hA
    obtain ⟨q1, v, hres, hlook⟩ := h.2 fixDb qs out hA
    have hv : v = PV.list [.inst fixB1, .inst fixB2] := by
      have : resolverFor fixDb fixAuthorLoaded fixRelBooksLoaded
          = ([], .ok (PV.list [.inst fixB1, .inst fixB2])) := by rfl
      rw [this] at hres
      injection hres with h1 h2
      injection h2 with h3
      exact h3.symm
    subst hv
    simpa [fixRelBooksLoaded, RelEntry.name, boundaryEmit] using hlook

/-- A plain author row with no relation entries. -/
def fixAuthor7 : Inst := Inst.mk "Author" none [("id", .int 7)] []

/-- A book whose to-one `author` relation is loaded with an actual
related instance — the ordinary fully-loaded case. -/
def fixBookLoadedAuthor : Inst :=
  Inst.mk "Book" none [("id", .int 1)] [RelEntry.mk "author" fixMetaAuthor true (.inst fixAuthor7)]

/-- A book whose `author` relation is loaded and `None`. -/
def fixBookLoadedNullAuthor : Inst :=
  Inst.mk "Book" none [("id", .int 1)] [RelEntry.mk "author" fixMetaAuthor true .none]

/-- C2 counterexample. The claim — that at `depthBudget - 1 == 0` the
suspension-capable materializer emits `None` for every singular
relation field — fails on the code: for a book whose to-one `author`
relation is loaded (with an ordinary related instance, and likewise
with `None`), `relationship_resolver_for` subscripts the loaded value
(`related_objects[0]`, `loader.py` line 166) and the serialization at
budget 1 raises a `TypeError` instead of returning a record with
`author: None`. -/
theorem async_boundary_loaded_to_one_faults :
    serializeA fixDb fixMt (.inst fixBookLoadedAuthor) (some fixSchemaBook) 1
      = ([], .error .typeError) ∧
    serializeA fixDb fixMt (.inst fixBookLoadedNullAuthor) (some fixSchemaBook) 1
      = ([], .error .typeError) :=
  ⟨rfl, rfl⟩

/-! ## Claim C10: loaded null / empty relations at depth ≥ 2 -/

/-- An author whose `books` relation is loaded and the empty list. -/
def fixAuthorLoadedEmptyBooks : Inst :=
  Inst.mk "Author" none [("id", .int 7)] [RelEntry.mk "books" fixMetaBooks true (.list [])]

/-- C10 (refuting evaluation). The claim — that with a remaining depth
budget of at least 2 both materializer forms terminate without fault on
a loaded `None` singular relation and on a loaded empty collection
relation — fails on the code. At depth 2: the blocking serializer
recurses into the loaded `None` value and faults reading
`model_fields` off the `None` schema looked up under `NoneType`
(`loader.py` lines 86-88 into line 61); the suspension-capable
serializer evaluates `value[0]` on the loaded empty list and faults
with `IndexError` (`loader.py` line 130); and the suspension-capable
resolver subscripts the loaded `None` of a many-to-one relation
(`loader.py` line 166), a `TypeError`. No storage query is issued in
any of the three runs. -/
theorem loaded_empty_and_null_relations_fault :
    serializeS fixMt (.inst fixBookLoadedNullAuthor) (some fixSchemaBook) 2
      = .error .attrError ∧
    serializeA fixDb fixMt (.inst fixAuthorLoadedEmptyBooks) (some fixSchemaAuthor) 2
      = ([], .error .indexError) ∧
    serializeA fixDb fixMt (.inst fixBookLoadedNullAuthor) (some fixSchemaBook) 2
      = ([], .error .typeError) :=
  ⟨rfl, rfl, rfl⟩

/-! ## Synthesizer cache lemmas -/

theorem clookup_mem (c : Cache) (n : String) (v : Schema) (h : clookup c n = some v) :
    (n, v) ∈ c := by
  induction c with
  | nil => simp [clookup] at h
  | cons p t ih =>
    cases p with
    | mk k w =>
      by_cases hk : k = n
      · subst hk
        simp [clookup] at h
        simp [h]
      · simp [clookup, hk] at h
        exact List.mem_cons_of_mem _ (ih h)

/-- The relationship loop only ever adds cache entries: its output cache
is its commit trace (reversed) consed onto its input cache, provided the
recursive synthesis call has the same shape. -/
theorem relFieldsAux_cache (env : List EntityDesc)
    (tp : EntityDesc → Cache → Cache × Trace × Except MapErr Schema)
    (htp : ∀ E c, (tp E c).1 = (tp E c).2.1.reverse ++ c) :
    ∀ (rels : List RelDesc) (excl : List String) (c : Cache),
      (relFieldsAux env tp rels excl c).1 = (relFieldsAux env tp rels excl c).2.1.reverse ++ c := by
  intro rels
  induction rels with
  | nil => intro excl c; simp [relFieldsAux]
  | cons r rest ih =>
    intro excl c
    simp only [relFieldsAux]
    split
    · exact ih excl c
    · split
      · simp
      · rename_i tgt henv
        split
        · rename_i c1 tr1 e htp2
          have h0 := htp tgt c
          rw [htp2] at h0
          simpa using h0
        · rename_i c1 tr1 s htp2
          have hc1 : c1 = tr1.reverse ++ c := by
            have h0 := htp tgt c
            rw [htp2] at h0
            exact h0
          split
          · rename_i c2 tr2 e hrec
            have hc2 : c2 = tr2.reverse ++ c1 := by
              have h0 := ih excl c1
              rw [hrec] at h0
              exact h0
            simp [hc2, hc1, List.reverse_append, List.append_assoc]
          · rename_i c2 tr2 fs hrec
            have hc2 : c2 = tr2.reverse ++ c1 := by
              have h0 := ih excl c1
              rw [hrec] at h0
              exact h0
            simp [hc2, hc1, List.reverse_append, List.append_assoc]

/-- `_to_pydantic` only ever adds cache entries: its output cache is its
commit trace (reversed) consed onto its input cache. -/
theorem toPydantic_cache (env : List EntityDesc) :
    ∀ (fuel : Nat) (E : EntityDesc) (o : Opts) (c : Cache),
      (toPydantic env fuel E o c).1 = (toPydantic env fuel E o c).2.1.reverse ++ c := by
  intro fuel
  induction fuel with
  | zero => intro E o c; simp [toPydantic]
  | succ f ih =>
    intro E o c
    simp only [toPydantic]
    cases hl : clookup c (canonName E o) with
    | some m => simp
    | none =>
      cases hsf : scalarFields E.columns (o.exclude ++ E.pydanticExclude) with
      | error e => simp
      | ok sf =>
        rcases hrf : relFieldsAux env (fun E2 c2 => toPydantic env f E2 ⟨none, [], none⟩ c2)
            E.relationships (o.exclude ++ E.pydanticExclude)
            ((canonName E o, Schema.mk (canonName E o) sf) :: c) with ⟨c2, tr2, res⟩
        have hc2 : c2 = tr2.reverse ++ ((canonName E o, Schema.mk (canonName E o) sf) :: c) := by
          have h0 := relFieldsAux_cache env _ (fun E2 c2 => ih E2 ⟨none, [], none⟩ c2)
            E.relationships (o.exclude ++ E.pydanticExclude)
            ((canonName E o, Schema.mk (canonName E o) sf) :: c)
          rw [hrf] at h0
          exact h0
        cases res <;>
          simp [hrf, hc2, List.reverse_append, List.append_assoc]

/-- A name already bound in the cache is never committed again by the
relationship loop, and stays bound to the same schema. -/
theorem relFieldsAux_fresh (env : List EntityDesc)
    (tp : EntityDesc → Cache → Cache × Trace × Except MapErr Schema)
    (htpf : ∀ E c n s, clookup c n = some s →
      (∀ p ∈ (tp E c).2.1, p.1 ≠ n) ∧ clookup (tp E c).1 n = some s) :
    ∀ (rels : List RelDesc) (excl : List String) (c : Cache) (n : String) (s : Schema),
      clookup c n = some s →
        (∀ p ∈ (relFieldsAux env tp rels excl c).2.1, p.1 ≠ n) ∧
        clookup (relFieldsAux env tp rels excl c).1 n = some s := by
  intro rels
  induction rels with
  | nil => intro excl c n s hc; exact ⟨by simp [relFieldsAux], by simpa [relFieldsAux] using hc⟩
  | cons r rest ih =>
    intro excl c n s hc
    simp only [relFieldsAux]
    split
    · exact ih excl c n s hc
    · split
      · exact ⟨by simp, by simpa using hc⟩
      · rename_i tgt henv
        split
        · rename_i c1 tr1 e htp2
          have hfresh1 := htpf tgt c n s hc
          rw [htp2] at hfresh1
          exact ⟨hfresh1.1, hfresh1.2⟩
        · rename_i c1 tr1 s2 htp2
          have hfresh1 := htpf tgt c n s hc
          rw [htp2] at hfresh1
          split
          · rename_i c2 tr2 e hrec
            have hfresh2 := ih excl c1 n s hfresh1.2
            rw [hrec] at hfresh2
            refine ⟨?_, hfresh2.2⟩
            intro p hp
            rcases List.mem_append.mp hp with h0 | h0
            · exact hfresh1.1 p h0
            · exact hfresh2.1 p h0
          · rename_i c2 tr2 fs hrec
            have hfresh2 := ih excl c1 n s hfresh1.2
            rw [hrec] at hfresh2
            refine ⟨?_, hfresh2.2⟩
            intro p hp
            rcases List.mem_append.mp hp with h0 | h0
            · exact hfresh1.1 p h0
            · exact hfresh2.1 p h0

/-- A name already bound in the cache is never committed again by
`_to_pydantic` (every commit targets a name that was free when the
synthesis of that name began), and stays bound to the same schema. -/
theorem toPydantic_fresh (env : List EntityDesc) :
    ∀ (fuel : Nat) (E : EntityDesc) (o : Opts) (c : Cache) (n : String) (s : Schema),
      clookup c n = some s →
        (∀ p ∈ (toPydantic env fuel E o c).2.1, p.1 ≠ n) ∧
        clookup (toPydantic env fuel E o c).1 n = some s := by
  intro fuel
  induction fuel with
  | zero => intro E o c n s hc; exact ⟨by simp [toPydantic], by simpa [toPydantic] using hc⟩
  | succ f ih =>
    intro E o c n s hc
    simp only [toPydantic]
    split
    · exact ⟨by simp, by simpa using hc⟩
    · rename_i hl
      have hne : canonName E o ≠ n := by
        intro h0
        rw [h0, hc] at hl
        exact Option.noConfusion hl
      split
      · exact ⟨by simp, by simpa using hc⟩
      · rename_i sf hsf
        have hc1 : clookup ((canonName E o, Schema.mk (canonName E o) sf) :: c) n = some s := by
          rw [clookup_cons_ne _ _ _ _ hne]
          exact hc
        have hfr0 := relFieldsAux_fresh env
          (fun E2 c2 => toPydantic env f E2 ⟨none, [], none⟩ c2)
          (fun E2 c2 n2 s2 hc2 => ih E2 ⟨none, [], none⟩ c2 n2 s2 hc2)
          E.relationships (o.exclude ++ E.pydanticExclude)
          ((canonName E o, Schema.mk (canonName E o) sf) :: c) n s hc1
        split
        · rename_i c2 tr2 e hrf
          rw [hrf] at hfr0
          refine ⟨?_, hfr0.2⟩
          intro p hp
          rcases List.mem_cons.mp hp with h0 | h0
          · rw [h0]; exact hne
          · exact hfr0.1 p h0
        · rename_i c2 tr2 rf hrf
          rw [hrf] at hfr0
          refine ⟨?_, ?_⟩
          · intro p hp
            rcases List.mem_cons.mp hp with h0 | h0
            · rw [h0]; exact hne
            · rcases List.mem_append.mp h0 with h1 | h1
              · exact hfr0.1 p h1
              · simp at h1
                subst h1
                exact hne
          · rw [clookup_cons_ne _ _ _ _ hne]
            exact hfr0.2

/-- After a successful synthesis, the canonical name is bound to the
returned schema. -/
theorem toPydantic_lookup_ok (env : List EntityDesc) (fuel : Nat) (E : EntityDesc)
    (o : Opts) (c c1 : Cache) (tr : Trace) (m : Schema)
    (h : toPydantic env fuel E o c = (c1, tr, .ok m)) :
    clookup c1 (canonName E o) = some m := by
  cases fuel with
  | zero => simp [toPydantic] at h
  | succ f =>
    simp only [toPydantic] at h
    split at h
    · rename_i m0 hl
      injection h with h1 h2
      injection h2 with h3 h4
      injection h4 with h5
      rw [← h1, ← h5]
      exact hl
    · rename_i hl
      split at h
      · rename_i e hsf
        exact absurd h (by simp)
      · rename_i sf hsf
        split at h
        · rename_i c2 tr2 e hrf
          exact absurd h (by simp)
        · rename_i c2 tr2 rf hrf
          injection h with h1 h2
          injection h2 with h3 h4
          injection h4 with h5
          rw [← h1, ← h5]
          exact clookup_cons_self _ _ _

/-- Every field the column loop yields is a scalar field. -/
theorem scalarFields_scalar (cols : List ColumnDesc) (excl : List String)
    (sf : List SField) (h : scalarFields cols excl = .ok sf) :
    ∀ f ∈ sf, f.isScalarField = true := by
  induction cols generalizing sf with
  | nil =>
    simp only [scalarFields] at h
    injection h with h1
    subst h1
    simp
  | cons col rest ih =>
    simp only [scalarFields] at h
    split at h
    · exact ih sf h
    · split at h
      · exact absurd h (by simp)
      · split at h
        · exact absurd h (by simp)
        · rename_i fs hrest
          injection h with h1
          subst h1
          intro f hf
          rcases List.mem_cons.mp hf with h0 | h0
          · subst h0
            split <;> simp [SField.isScalarField]
          · exact ih fs hrest f h0

/-- A non-excluded column whose storage type did not resolve makes the
column loop fail with the line-53 assertion. -/
theorem scalarFields_bad (cols : List ColumnDesc) (excl : List String) (col : ColumnDesc)
    (hmem : col ∈ cols) (hbad : col.pythonType = none) (hexc : col.name ∉ excl) :
    scalarFields cols excl = .error .mappingError := by
  induction cols with
  | nil => cases hmem
  | cons c0 rest ih =>
    simp only [scalarFields]
    rcases List.mem_cons.mp hmem with h0 | h0
    · subst h0
      rw [if_neg hexc, hbad]
    · split
      · exact ih h0
      · split
        · rfl
        · rw [ih h0]

/-- Every non-excluded relationship contributes its direction-mapped
field to the relationship loop's output. -/
theorem relFieldsAux_spec (env : List EntityDesc)
    (tp : EntityDesc → Cache → Cache × Trace × Except MapErr Schema) :
    ∀ (rels : List RelDesc) (excl : List String) (c c2 : Cache) (tr : Trace)
      (fs : List SField),
      relFieldsAux env tp rels excl c = (c2, tr, .ok fs) →
      ∀ r ∈ rels, r.name ∉ excl → ∃ s, relField r s ∈ fs := by
  intro rels
  induction rels with
  | nil => intro excl c c2 tr fs h r hr; cases hr
  | cons r0 rest ih =>
    intro excl c c2 tr fs h r hr hexc
    simp only [relFieldsAux] at h
    split at h
    · rename_i hx
      rcases List.mem_cons.mp hr with h0 | h0
      · subst h0; exact absurd hx hexc
      · exact ih excl c c2 tr fs h r h0 hexc
    · split at h
      · exact absurd h (by simp)
      · rename_i tgt henv
        split at h
        · exact absurd h (by simp)
        · rename_i c1 tr1 s htp2
          split at h
          · exact absurd h (by simp)
          · rename_i c3 tr3 fs3 hrec
            injection h with h1 h2
            injection h2 with h3 h4
            injection h4 with h5
            subst h5
            rcases List.mem_cons.mp hr with h0 | h0
            · subst h0
              exact ⟨s, by simp⟩
            · obtain ⟨s2, hs2⟩ := ih excl c1 c3 tr3 fs3 hrec r h0 hexc
              exact ⟨s2, by simp [hs2]⟩

/-! ## Claim C4: two-phase cache commits and cycle behavior -/

/-- C4. During a fresh, successful synthesis of an entity `E`, the cache
is committed exactly twice under `E`'s canonical name: first (the very
first commit of the run) the scalar-only stub, before any relationship
synthesis, and last the full schema; every field of the stub is scalar;
any recursive synthesis call that resolves to the same canonical name
while the name is bound to the stub returns the stub itself, with no
commit and no cache change; and throughout stage two — the relationship
loop, shown explicitly in the last conjunct — the name stays bound to
the stub, so the full schema is `stub fields ++ relationship fields`. -/
theorem two_phase_cache_commits (env : List EntityDesc) (fuel : Nat) (E : EntityDesc)
    (o : Opts) (c c1 : Cache) (tr : Trace) (m : Schema) (sf : List SField)
    (hfresh : clookup c (canonName E o) = none)
    (hsf : scalarFields E.columns (o.exclude ++ E.pydanticExclude) = .ok sf)
    (h : toPydantic env (fuel + 1) E o c = (c1, tr, .ok m)) :
    (tr.filter (fun p => p.1 = canonName E o)
      = [(canonName E o, Schema.mk (canonName E o) sf), (canonName E o, m)]) ∧
    tr.head? = some (canonName E o, Schema.mk (canonName E o) sf) ∧
    tr.getLast? = some (canonName E o, m) ∧
    (∀ f ∈ sf, f.isScalarField = true) ∧
    (∀ (f2 : Nat) (E2 : EntityDesc) (o2 : Opts) (d : Cache),
      canonName E2 o2 = canonName E o →
      clookup d (canonName E o) = some (Schema.mk (canonName E o) sf) →
      toPydantic env (f2 + 1) E2 o2 d = (d, [], .ok (Schema.mk (canonName E o) sf))) ∧
    (∃ c2 tr2 rf,
      relFieldsAux env (fun E2 c2 => toPydantic env fuel E2 ⟨none, [], none⟩ c2)
        E.relationships (o.exclude ++ E.pydanticExclude)
        ((canonName E o, Schema.mk (canonName E o) sf) :: c) = (c2, tr2, .ok rf) ∧
      clookup c2 (canonName E o) = some (Schema.mk (canonName E o) sf) ∧
      m = Schema.mk (canonName E o) (sf ++ rf) ∧
      tr = (canonName E o, Schema.mk (canonName E o) sf) :: (tr2 ++ [(canonName E o, m)])) := by
  simp only [toPydantic, hfresh, hsf] at h
  have hstub : clookup ((canonName E o, Schema.mk (canonName E o) sf) :: c) (canonName E o)
      = some (Schema.mk (canonName E o) sf) := clookup_cons_self _ _ _
  split at h
  · exact absurd h (by simp)
  · rename_i c2 tr2 rf hrf
    injection h with h1 h2
    injection h2 with h3 h4
    injection h4 with h5
    subst h3
    have hfr := relFieldsAux_fresh env
      (fun E2 c2 => toPydantic env fuel E2 ⟨none, [], none⟩ c2)
      (fun E2 c2 n2 s2 hc2 => toPydantic_fresh env fuel E2 ⟨none, [], none⟩ c2 n2 s2 hc2)
      E.relationships (o.exclude ++ E.pydanticExclude)
      ((canonName E o, Schema.mk (canonName E o) sf) :: c)
      (canonName E o) (Schema.mk (canonName E o) sf) hstub
    rw [hrf] at hfr
    have htr2 : tr2.filter (fun p => p.1 = canonName E o) = [] :=
      List.filter_eq_nil_iff.mpr (fun p hp => by simpa using hfr.1 p hp)
    refine ⟨?_, ?_, ?_, scalarFields_scalar _ _ _ hsf, ?_, ?_⟩
    · simp [List.filter_append, htr2, ← h5]
    · simp
    · rw [show (canonName E o, Schema.mk (canonName E o) sf) ::
          (tr2 ++ [(canonName E o, Schema.mk (canonName E o) (sf ++ rf))])
          = ((canonName E o, Schema.mk (canonName E o) sf) :: tr2)
            ++ [(canonName E o, Schema.mk (canonName E o) (sf ++ rf))] by simp]
      rw [List.getLast?_concat, ← h5]
    · intro f2 E2 o2 d hname hd
      simp only [toPydantic, hname, hd]
    · exact ⟨c2, tr2, rf, hrf, hfr.2, h5.symm, by rw [← h5]⟩

/-- The cyclic `Author`/`Book` pair: each entity references the other. -/
def fixEntBook : EntityDesc :=
  ⟨"Book", none, [],
   [⟨"id", some "int", false⟩, ⟨"author_id", some "int", true⟩],
   [⟨"author", .manytoone, 1⟩]⟩

def fixEntAuthor : EntityDesc :=
  ⟨"Author", none, [], [⟨"id", some "int", false⟩], [⟨"books", .onetomany, 0⟩]⟩

def fixEnv : List EntityDesc := [fixEntBook, fixEntAuthor]

/-- The full `Book` schema synthesized inside the `Author` run: its
`author` back-reference field carries the scalar-only `Author` stub. -/
def fixSchemaBookFull : Schema :=
  Schema.mk "Book"
    [SField.mk "id" (.scalar "int") .required,
     SField.mk "author_id" (.optScalar "int") .dnull,
     SField.mk "author" (.optOf fixSchemaAuthorScalar) .dnull]

def fixSchemaAuthorFull : Schema :=
  Schema.mk "Author"
    [SField.mk "id" (.scalar "int") .required,
     SField.mk "books" (.listOf fixSchemaBookFull) .demptyList]

theorem two_phase_cache_commits_witness :
    ((toPydantic fixEnv 3 fixEntAuthor ⟨none, [], none⟩ []).2.1.filter
        (fun p => p.1 = "Author"))
      = [("Author", fixSchemaAuthorScalar), ("Author", fixSchemaAuthorFull)] ∧
    toPydantic fixEnv 1 fixEntAuthor ⟨none, [], none⟩ [("Author", fixSchemaAuthorScalar)]
      = ([("Author", fixSchemaAuthorScalar)], [], .ok fixSchemaAuthorScalar) := by
  have h := two_phase_cache_commits fixEnv 2 fixEntAuthor ⟨none, [], none⟩ [] _ _ _
    [SField.mk "id" (.scalar "int") .required] rfl rfl rfl
  exact ⟨h.1, h.2.2.2.2.1 0 fixEntAuthor ⟨none, [], none⟩
    [("Author", fixSchemaAuthorScalar)] rfl rfl⟩

/-! ## Claim C5: cached types are stable, later options ignored -/

/-- C5. After one completed synthesis call for `E`, every later call
that resolves to the same canonical name returns the identical cached
schema object, leaves the cache untouched, commits nothing — whatever
options (config, exclusions, explicit name) the later call supplies. -/
theorem cached_type_is_stable (env : List EntityDesc) (fuel f2 : Nat) (E : EntityDesc)
    (o1 o2 : Opts) (c c1 : Cache) (tr1 : Trace) (m : Schema)
    (h : toPydantic env fuel E o1 c = (c1, tr1, .ok m))
    (hname : canonName E o2 = canonName E o1) :
    toPydantic env (f2 + 1) E o2 c1 = (c1, [], .ok m) := by
  have hl : clookup c1 (canonName E o1) = some m := toPydantic_lookup_ok env fuel E o1 c c1 tr1 m h
  simp only [toPydantic, hname, hl]

/-- An entity with a declared `__pydantic_name__`. -/
def fixEntDeclared : EntityDesc := ⟨"Own", some "Declared", [], [], []⟩

theorem cached_type_is_stable_witness :
    toPydantic [] 1 fixEntDeclared ⟨some "SomeConfig", ["x"], some "Explicit"⟩
        [("Declared", Schema.mk "Declared" []), ("Declared", Schema.mk "Declared" [])]
      = ([("Declared", Schema.mk "Declared" []), ("Declared", Schema.mk "Declared" [])],
         [], .ok (Schema.mk "Declared" [])) :=
  cached_type_is_stable [] 1 0 fixEntDeclared ⟨none, [], none⟩
    ⟨some "SomeConfig", ["x"], some "Explicit"⟩ []
    [("Declared", Schema.mk "Declared" []), ("Declared", Schema.mk "Declared" [])]
    [("Declared", Schema.mk "Declared" []), ("Declared", Schema.mk "Declared" [])]
    (Schema.mk "Declared" []) rfl rfl

/-! ## Claim C6 (corrected): canonical-name precedence -/

/-- C6 counterexample. The claim says the explicit name option wins over
the entity-declared schema name. On the code, for an entity declaring
`__pydantic_name__ = "Declared"` and a call passing
`model_name = "Explicit"`, the synthesized schema is named and cached
under `"Declared"`, and nothing is cached under `"Explicit"`. -/
theorem canonical_name_explicit_does_not_win :
    (toPydantic [] 1 fixEntDeclared ⟨none, [], some "Explicit"⟩ []).2.2
      = .ok (Schema.mk "Declared" []) ∧
    clookup (toPydantic [] 1 fixEntDeclared ⟨none, [], some "Explicit"⟩ []).1 "Explicit"
      = none ∧
    ("Declared" : String) ≠ "Explicit" :=
  ⟨rfl, rfl, by decide⟩

/-- C6 (amended). The canonical name precedence the code implements is:
the entity-declared schema name attribute when present, otherwise the
explicitName option (with the Python-falsy empty string falling
through), otherwise the entity type's own name; the synthesized schema
carries that name. In particular, when both the entity-declared name
and explicitName are present, the entity-declared name wins. -/
theorem canonical_name_declared_over_explicit (env : List EntityDesc) (f : Nat)
    (E : EntityDesc) (o : Opts) (c c1 : Cache) (tr : Trace) (m : Schema)
    (hwf : ∀ p ∈ c, Schema.name p.2 = p.1)
    (h : toPydantic env (f + 1) E o c = (c1, tr, .ok m)) :
    m.name = (match E.pydanticName with
      | some s => s
      | none =>
        match o.modelName with
        | some s => if s = "" then E.name else s
        | none => E.name) := by
  have hm : m.name = canonName E o := by
    simp only [toPydantic] at h
    split at h
    · rename_i m0 hl
      injection h with h1 h2
      injection h2 with h3 h4
      injection h4 with h5
      rw [← h5]
      exact hwf _ (clookup_mem c _ m0 hl)
    · split at h
      · exact absurd h (by simp)
      · split at h
        · exact absurd h (by simp)
        · injection h with h1 h2
          injection h2 with h3 h4
          injection h4 with h5
          rw [← h5, Schema.name]
  rw [hm, canonName]

theorem canonical_name_declared_over_explicit_witness :
    Schema.name (Schema.mk "Declared" []) = "Declared" := by
  have h := canonical_name_declared_over_explicit [] 0 fixEntDeclared
    ⟨none, [], some "Explicit"⟩ [] _ _ _ (by simp) rfl
  simpa [fixEntDeclared] using h

/-! ## Claim C7 (corrected): relationship field mapping -/

/-- A tag entity and a post entity with a many-to-many `tags` relation. -/
def fixEntTag : EntityDesc := ⟨"Tag", none, [], [⟨"id", some "int", false⟩], []⟩

def fixEntPost : EntityDesc :=
  ⟨"Post", none, [], [⟨"id", some "int", false⟩], [⟨"tags", .manytomany, 0⟩]⟩

/-- C7 counterexample. The claim says every to-many relationship —
including many-to-many — gets the empty sequence as default. On the
code, a `MANYTOMANY` relationship is synthesized as a nested-collection
field whose default is `None` (`mapper.py` line 73), not the empty
list. -/
theorem manytomany_default_is_null :
    (toPydantic [fixEntTag] 2 fixEntPost ⟨none, [], none⟩ []).2.2
      = .ok (Schema.mk "Post"
          [SField.mk "id" (.scalar "int") .required,
           SField.mk "tags" (.listOf (Schema.mk "Tag"
             [SField.mk "id" (.scalar "int") .required])) .dnull]) ∧
    Dflt.dnull ≠ Dflt.demptyList :=
  ⟨rfl, by decide⟩

/-- C7 (amended). For every non-excluded relationship of a freshly
synthesized entity: a to-one (`MANYTOONE`) relationship becomes a
nested-singular optional field with default null; a `ONETOMANY`
relationship becomes a nested-collection field with default empty
sequence; a `MANYTOMANY` relationship becomes a nested-collection field
with default null (not the empty sequence). -/
theorem relationship_field_specs (env : List EntityDesc) (fuel : Nat) (E : EntityDesc)
    (o : Opts) (c c1 : Cache) (tr : Trace) (m : Schema)
    (hfresh : clookup c (canonName E o) = none)
    (h : toPydantic env (fuel + 1) E o c = (c1, tr, .ok m)) :
    ∀ r ∈ E.relationships, r.name ∉ o.exclude ++ E.pydanticExclude →
      ∃ s, (r.direction = .manytoone → SField.mk r.name (.optOf s) .dnull ∈ m.fields) ∧
        (r.direction = .onetomany → SField.mk r.name (.listOf s) .demptyList ∈ m.fields) ∧
        (r.direction = .manytomany → SField.mk r.name (.listOf s) .dnull ∈ m.fields) := by
  intro r hr hexc
  simp only [toPydantic, hfresh] at h
  split at h
  · exact absurd h (by simp)
  · rename_i sf hsf
    split at h
    · exact absurd h (by simp)
    · rename_i c2 tr2 rf hrf
      injection h with h1 h2
      injection h2 with h3 h4
      injection h4 with h5
      obtain ⟨s, hs⟩ := relFieldsAux_spec env _ E.relationships
        (o.exclude ++ E.pydanticExclude) _ c2 tr2 rf hrf r hr hexc
      refine ⟨s, ?_, ?_, ?_⟩ <;> intro hdir <;>
        · rw [← h5]
          simp only [Schema.fields]
          refine List.mem_append_right _ ?_
          simpa [relField, hdir] using hs

/-- The scalar-only `Book` stub. -/
def fixSchemaBookScalar : Schema :=
  Schema.mk "Book"
    [SField.mk "id" (.scalar "int") .required,
     SField.mk "author_id" (.optScalar "int") .dnull]

/-- The `Author` schema synthesized inside a `Book`-rooted run: its
`books` field carries the scalar-only `Book` stub (cycle break). -/
def fixSchemaAuthorInBookRun : Schema :=
  Schema.mk "Author"
    [SField.mk "id" (.scalar "int") .required,
     SField.mk "books" (.listOf fixSchemaBookScalar) .demptyList]

/-- The full `Book` schema of a `Book`-rooted run. -/
def fixSchemaBookRoot : Schema :=
  Schema.mk "Book"
    [SField.mk "id" (.scalar "int") .required,
     SField.mk "author_id" (.optScalar "int") .dnull,
     SField.mk "author" (.optOf fixSchemaAuthorInBookRun) .dnull]

theorem relationship_field_specs_witness :
    (∃ s, SField.mk "books" (.listOf s) .demptyList ∈ fixSchemaAuthorFull.fields) ∧
    (∃ s, SField.mk "author" (.optOf s) .dnull ∈ fixSchemaBookRoot.fields) := by
  have hA := relationship_field_specs fixEnv 2 fixEntAuthor ⟨none, [], none⟩ []
    _ _ fixSchemaAuthorFull rfl rfl ⟨"books", .onetomany, 0⟩
    (by simp [fixEntAuthor]) (by simp [fixEntAuthor])
  have hB := relationship_field_specs fixEnv 2 fixEntBook ⟨none, [], none⟩ []
    _ _ fixSchemaBookRoot rfl rfl ⟨"author", .manytoone, 1⟩
    (by simp [fixEntBook]) (by simp [fixEntBook])
  constructor
  · obtain ⟨s, hs⟩ := hA
    exact ⟨s, hs.2.1 rfl⟩
  · obtain ⟨s, hs⟩ := hB
    exact ⟨s, hs.1 rfl⟩

/-! ## Claim C8: unresolvable column type fails synthesis -/

/-- C8. A fresh synthesis of an entity containing a non-excluded column
whose storage type cannot be resolved to a recognized scalar runtime
type fails with the spec's `MappingError` (the `assert python_type`
of `mapper.py` line 53), the error propagates to the caller, no schema
is produced, and nothing is committed to the cache. -/
theorem unresolved_column_type_fails (env : List EntityDesc) (fuel : Nat)
    (E : EntityDesc) (o : Opts) (c : Cache) (col : ColumnDesc)
    (hfresh : clookup c (canonName E o) = none)
    (hcol : col ∈ E.columns) (hbad : col.pythonType = none)
    (hexc : col.name ∉ o.exclude ++ E.pydanticExclude) :
    toPydantic env (fuel + 1) E o c = (c, [], .error .mappingError) := by
  have hsf := scalarFields_bad E.columns (o.exclude ++ E.pydanticExclude) col hcol hbad hexc
  simp only [toPydantic, hfresh, hsf]

/-- An entity with a column whose storage type does not resolve. -/
def fixEntBadCol : EntityDesc := ⟨"Weird", none, [], [⟨"blob", none, true⟩], []⟩

theorem unresolved_column_type_fails_witness :
    toPydantic [] 1 fixEntBadCol ⟨none, [], none⟩ [] = ([], [], .error .mappingError) :=
  unresolved_column_type_fails [] 0 fixEntBadCol ⟨none, [], none⟩ [] ⟨"blob", none, true⟩
    rfl (by simp [fixEntBadCol]) rfl (by simp [fixEntBadCol])

/-! ## Claim C9: scalar normalization and date/time round-trip -/

theorem digitChar_isDigit (k : Nat) (hk : k ≤ 9) : isDigitCode (digitChar k) = true := by
  interval_cases k <;> decide

theorem decDigit_digitChar (k : Nat) (hk : k ≤ 9) : decDigit (digitChar k) = k := by
  interval_cases k <;> decide

/-- C9. Materialization normalizes a `datetime` value to its
second-precision fixed-format text and a `time` / `timedelta` value to
its canonical text, while every other scalar value passes through
`_convert` unchanged; consequently, materializing a (well-formed)
`datetime` and then validating and re-reading the field yields exactly
the original value truncated to one-second precision. -/
theorem scalar_normalization_roundtrip (d : PyDateTime)
    (hy : d.year ≤ 9999) (hmo : d.month ≤ 99) (hd : d.day ≤ 99)
    (hh : d.hour ≤ 99) (hmi : d.minute ≤ 99) (hs : d.second ≤ 99) :
    Scalar.convert (.dt d) = .str (isoDateTimeSec d) ∧
    parseIsoDateTimeSec (isoDateTimeSec d)
      = some ⟨d.year, d.month, d.day, d.hour, d.minute, d.second, 0⟩ ∧
    (∀ t, Scalar.convert (.tod t) = .str (isoTimeSec t)) ∧
    (∀ td, Scalar.convert (.dur td) = .str (strDelta td)) ∧
    (∀ n : Int, Scalar.convert (.int n) = .int n) ∧
    (∀ s, Scalar.convert (.str s) = .str s) ∧
    (∀ b, Scalar.convert (.bool b) = .bool b) ∧
    Scalar.convert .null = .null := by
  refine ⟨rfl, ?_, fun t => rfl, fun td => rfl, fun n => rfl, fun s => rfl, fun b => rfl, rfl⟩
  simp only [parseIsoDateTimeSec, isoDateTimeSec, pad4, pad2, List.cons_append,
    List.nil_append]
  rw [if_pos]
  · rw [decDigit_digitChar _ (by omega), decDigit_digitChar _ (by omega),
      decDigit_digitChar _ (by omega), decDigit_digitChar _ (by omega),
      decDigit_digitChar _ (by omega), decDigit_digitChar _ (by omega),
      decDigit_digitChar _ (by omega), decDigit_digitChar _ (by omega),
      decDigit_digitChar _ (by omega), decDigit_digitChar _ (by omega),
      decDigit_digitChar _ (by omega), decDigit_digitChar _ (by omega),
      decDigit_digitChar _ (by omega), decDigit_digitChar _ (by omega)]
    congr 1
    congr 1 <;> omega
  · exact ⟨trivial, trivial, trivial, trivial, trivial,
      digitChar_isDigit _ (by omega), digitChar_isDigit _ (by omega),
      digitChar_isDigit _ (by omega), digitChar_isDigit _ (by omega),
      digitChar_isDigit _ (by omega), digitChar_isDigit _ (by omega),
      digitChar_isDigit _ (by omega), digitChar_isDigit _ (by omega),
      digitChar_isDigit _ (by omega), digitChar_isDigit _ (by omega),
      digitChar_isDigit _ (by omega), digitChar_isDigit _ (by omega),
      digitChar_isDigit _ (by omega), digitChar_isDigit _ (by omega)⟩

theorem scalar_normalization_roundtrip_witness :
    Scalar.convert (.dt ⟨2024, 5, 6, 7, 8, 9, 123456⟩)
      = .str (isoDateTimeSec ⟨2024, 5, 6, 7, 8, 9, 123456⟩) ∧
    parseIsoDateTimeSec (isoDateTimeSec ⟨2024, 5, 6, 7, 8, 9, 123456⟩)
      = some ⟨2024, 5, 6, 7, 8, 9, 0⟩ := by
  have h := scalar_normalization_roundtrip ⟨2024, 5, 6, 7, 8, 9, 123456⟩
    (by decide) (by decide) (by decide) (by decide) (by decide) (by decide)
  exact ⟨h.1, h.2.1⟩

end PSM
